import Mathlib

/-!
Verification of the Confidence–Decay–Recall subsystem of the agent-memory
repository (src/store.ts, src/recall.ts, src/corroborate.ts, src/types.ts),
as a shallow embedding in Lean 4.

Numeric conventions. The source performs IEEE double arithmetic on values
that are exact decimal fractions; we embed its score arithmetic exactly
over `ℚ`.  Because Mathlib's `Rat.mul`/`Rat.add`/... are `@[irreducible]`
(so concrete evaluation by `decide` is impossible through them), the
embedding uses its own executable wrappers `qMul`, `qAdd`, `qSub`, `qDiv`
built from `mkRat`/`Rat.divInt`; bridge lemmas prove them equal to the
ordinary field operations.  `Math.exp` is transcendental: the per-fact
decay value is embedded over `ℝ` with `Real.exp` (`sweepRelevance`), and
the state-transition form of the sweep (`decayOp`) is parametrised by the
rational-valued realisation `expQ : ℚ → ℚ` of the double-precision
`Math.exp` (every IEEE double is rational, so the running program is one
instance of this parameter).

Text conventions.  JavaScript strings with `toLowerCase`, `includes`,
`split(/\s+/)` and SQLite `LIKE` are embedded over `List Char` with
structurally recursive functions (`lowerChars`, `containsL`, `splitWs`),
so that every concrete run reduces in the kernel.
-/

namespace AgentMem

/-! ## Executable rational arithmetic -/

/-- Executable multiplication on `ℚ` (value-equal to `·*·`, see `qMul_eq`). -/
def qMul (a b : ℚ) : ℚ := mkRat (a.num * b.num) (a.den * b.den)

/-- Executable addition on `ℚ` (value-equal to `·+·`, see `qAdd_eq`). -/
def qAdd (a b : ℚ) : ℚ := mkRat (a.num * (b.den : ℤ) + b.num * (a.den : ℤ)) (a.den * b.den)

/-- Executable subtraction on `ℚ`. -/
def qSub (a b : ℚ) : ℚ := mkRat (a.num * (b.den : ℤ) - b.num * (a.den : ℤ)) (a.den * b.den)

/-- Executable division on `ℚ` (`x / 0 = 0`, matching Mathlib's convention;
the source guards all its divisions against zero denominators). -/
def qDiv (a b : ℚ) : ℚ := Rat.divInt (a.num * (b.den : ℤ)) ((a.den : ℤ) * b.num)

/-- Executable negation on `ℚ`. -/
def qNeg (a : ℚ) : ℚ := mkRat (-a.num) a.den

/-- Embed a natural number count into `ℚ`. -/
def qOfNat (n : ℕ) : ℚ := mkRat (Int.ofNat n) 1

/-- JavaScript `Math.min` on exact values. -/
def jsMin (a b : ℚ) : ℚ := if a ≤ b then a else b

/-- JavaScript `Math.max` on exact values. -/
def jsMax (a b : ℚ) : ℚ := if a ≤ b then b else a

/-- JavaScript `Math.round` (round half toward positive infinity). -/
def jsRoundInt (x : ℚ) : ℤ := Rat.floor (qAdd x (mkRat 1 2))

/-- The source's pervasive `Math.round(x * 100) / 100` two-decimal rounding. -/
def round2 (x : ℚ) : ℚ := mkRat (jsRoundInt (qMul x (mkRat 100 1))) 100

/-! ## Text primitives (JavaScript string ops over `List Char`) -/

/-- ASCII lower-casing of a string's characters, as done by
`toLowerCase` on the repository's ASCII contents and by SQLite `LIKE`. -/
def lowerChars (s : String) : List Char := s.data.map Char.toLower

/-- Lower-casing on an already extracted character list. -/
def lowerL (cs : List Char) : List Char := cs.map Char.toLower

/-- Whether `pre` begins the list `l`. -/
def startsWithL : List Char → List Char → Bool
  | [], _ => true
  | _ :: _, [] => false
  | a :: as, b :: bs => a == b && startsWithL as bs

/-- JavaScript `String.prototype.includes`: substring containment. -/
def containsL (needle : List Char) : List Char → Bool
  | [] => startsWithL needle []
  | b :: bs => startsWithL needle (b :: bs) || containsL needle bs

/-- Split on whitespace runs, dropping empty pieces — the effect of
JavaScript `split(/\s+/)` followed by the length filters the source
always applies. -/
def splitWsAux : List Char → List Char → List (List Char)
  | [], acc => if acc.isEmpty then [] else [acc.reverse]
  | c :: cs, acc =>
    if c.isWhitespace then
      (if acc.isEmpty then splitWsAux cs [] else acc.reverse :: splitWsAux cs [])
    else splitWsAux cs (c :: acc)

/-- Whitespace tokenisation of a character list. -/
def splitWs (cs : List Char) : List (List Char) := splitWsAux cs []

/-- Keep-first deduplication, the effect of feeding tokens into a
JavaScript `Set`. -/
def dedupGo (seen : List (List Char)) : List (List Char) → List (List Char)
  | [] => []
  | w :: ws => if seen.contains w then dedupGo seen ws else w :: dedupGo (w :: seen) ws

/-- Deduplicate a token list keeping first occurrences. -/
def dedupL (ws : List (List Char)) : List (List Char) := dedupGo [] ws

/-- Stable insertion of one element into a sorted list: `x` goes before
the first element `y` with `le x y`. -/
def insSorted {α : Type} (le : α → α → Bool) (x : α) : List α → List α
  | [] => [x]
  | y :: ys => if le x y then x :: y :: ys else y :: insSorted le x ys

/-- Stable sort (insertion sort), modelling JavaScript's stable
`Array.prototype.sort` and SQL `ORDER BY`. -/
def sortL {α : Type} (le : α → α → Bool) : List α → List α
  | [] => []
  | x :: xs => insSorted le x (sortL le xs)

/-- The apostrophe character, used to build the negation-pair literals. -/
def apoStr : String := String.mk [Char.ofNat 39]

/-! ## Data model (src/types.ts) -/

/-- Provenance kinds (`SourceType` in src/types.ts). -/
inductive SourceType
  | experienced
  | told
  | read
  | inferred
  | observed
deriving DecidableEq

/-- Memory categories (`MemoryCategory` in src/types.ts). -/
inductive MemoryCategory
  | fact
  | event
  | opinion
  | preference
  | procedure
  | relationship
  | observation
deriving DecidableEq

/-- Source attribution of a memory (`Attribution` in src/types.ts);
`sessionId` is never consulted by the verified components and is omitted. -/
structure Attribution where
  type : SourceType
  actor : Option String
  context : Option String
  timestamp : ℤ
deriving DecidableEq

/-- Confidence record of a memory (`Confidence` in src/types.ts). -/
structure Confidence where
  score : ℚ
  basis : List String
  lastVerified : Option ℤ
  corroborations : ℕ
  contradictions : ℕ
deriving DecidableEq

/-- A stored memory row (`Memory` in src/types.ts; the SQLite row of
src/store.ts).  Timestamps are epoch milliseconds as integers. -/
structure Memory where
  id : String
  content : String
  summary : Option String
  attribution : Attribution
  confidence : Confidence
  entities : List String
  tags : List String
  category : MemoryCategory
  created : ℤ
  updated : ℤ
  lastAccessed : ℤ
  accessCount : ℕ
  decayRate : ℚ
  relevanceScore : ℚ
  pinned : Bool
  embedding : Option (List ℚ)
deriving DecidableEq

/-- Entity kinds (`Entity['type']` in src/types.ts). -/
inductive EntityType
  | person
  | project
  | place
  | concept
  | organization
  | agent
deriving DecidableEq

/-- A registered entity (`Entity` in src/types.ts); the string-map
`metadata` field is never consulted by the verified components. -/
structure Entity where
  id : String
  name : String
  type : EntityType
  description : Option String
  aliases : List String
  created : ℤ
  updated : ℤ
  memoryCount : ℕ
deriving DecidableEq

/-- The persistent store state: the `memories` table and the `entities`
table of src/store.ts (the `memory_entities` junction rows are carried on
each memory's `entities` field, as `rowToMemory` materialises them). -/
structure Store where
  memories : List Memory
  entities : List Entity
deriving DecidableEq

/-- Attribution part of `CreateMemoryInput` (src/types.ts). -/
structure InputAttr where
  type : SourceType
  actor : Option String
  context : Option String
deriving DecidableEq

/-- Input to `createMemory` (`CreateMemoryInput` in src/types.ts);
optional list fields are represented by their `?? []` defaults. -/
structure CreateMemoryInput where
  content : String
  summary : Option String
  attribution : InputAttr
  entities : List String
  tags : List String
  category : MemoryCategory
  decayRate : Option ℚ
  pinned : Option Bool
deriving DecidableEq

/-- Embedding of `SOURCE_BASE_CONFIDENCE` (src/types.ts lines 132–138). -/
def SOURCE_BASE_CONFIDENCE : SourceType → ℚ
  | .experienced => mkRat 9 10
  | .observed => mkRat 8 10
  | .told => mkRat 6 10
  | .read => mkRat 5 10
  | .inferred => mkRat 4 10

/-- Embedding of `CATEGORY_DEFAULT_DECAY` (src/types.ts lines 140–148). -/
def CATEGORY_DEFAULT_DECAY : MemoryCategory → ℚ
  | .fact => mkRat 1 10
  | .procedure => mkRat 15 100
  | .relationship => mkRat 2 10
  | .preference => mkRat 25 100
  | .event => mkRat 3 10
  | .opinion => mkRat 35 100
  | .observation => mkRat 4 10

/-- Display name of a provenance kind, as the lowercase string literals
of src/types.ts. -/
def sourceTypeName : SourceType → String
  | .experienced => "experienced"
  | .told => "told"
  | .read => "read"
  | .inferred => "inferred"
  | .observed => "observed"

/-- The interpolated first basis line of `computeInitialConfidence`:
`«kind» source (base: «score»)` with the base printed as JavaScript
prints the number. -/
def baseLabel : SourceType → String
  | .experienced => "experienced source (base: 0.9)"
  | .told => "told source (base: 0.6)"
  | .read => "read source (base: 0.5)"
  | .inferred => "inferred source (base: 0.4)"
  | .observed => "observed source (base: 0.8)"

/-! ## MemoryStore (src/store.ts) -/

/-- Embedding of `MemoryStore.computeInitialConfidence` (src/store.ts): base score by
provenance kind, `+0.05` when a learning context is present, capped at
1 after two-decimal rounding. -/
def computeInitialConfidence (input : CreateMemoryInput) : Confidence :=
  let baseScore := SOURCE_BASE_CONFIDENCE input.attribution.type
  let basis := [baseLabel input.attribution.type]
  let basis := match input.attribution.actor with
    | some a => basis ++ ["from: " ++ a]
    | none => basis
  let score := baseScore
  match input.attribution.context with
  | some _ =>
    { score := jsMin (mkRat 1 1) (round2 (qAdd score (mkRat 1 20)))
      basis := basis ++ ["has source context"]
      lastVerified := none, corroborations := 0, contradictions := 0 }
  | none =>
    { score := jsMin (mkRat 1 1) (round2 score)
      basis := basis
      lastVerified := none, corroborations := 0, contradictions := 0 }

/-- SQLite `LIKE '%pat%'` on a column (ASCII case-insensitive substring). -/
def likeHas (hay : String) (pat : String) : Bool :=
  containsL (lowerChars pat) (lowerChars hay)

/-- Embedding of `LIKE` over a nullable column (`NULL` never matches). -/
def likeHasOpt (hay : Option String) (pat : String) : Bool :=
  match hay with
  | some h => likeHas h pat
  | none => false

/-- Row order `ORDER BY relevance_score DESC, created DESC` used by
`searchByText`, `searchByCategory` and `getEntityMemories`. -/
def storeLe (a b : Memory) : Bool :=
  if a.relevanceScore = b.relevanceScore then decide (b.created ≤ a.created)
  else decide (b.relevanceScore < a.relevanceScore)

/-- Row order `ORDER BY created DESC` used by `getAllMemories`. -/
def createdLe (a b : Memory) : Bool := decide (b.created ≤ a.created)

/-- Embedding of `MemoryStore.searchByText`: `content LIKE %text% OR summary LIKE
%text%`, ordered by relevance then recency, limited. -/
def searchByText (text : String) (limit : ℕ) (mems : List Memory) : List Memory :=
  (sortL storeLe (mems.filter fun m => likeHas m.content text || likeHasOpt m.summary text)).take limit

/-- Embedding of `MemoryStore.searchByCategory`. -/
def searchByCategory (cat : MemoryCategory) (limit : ℕ) (mems : List Memory) : List Memory :=
  (sortL storeLe (mems.filter fun m => m.category == cat)).take limit

/-- Embedding of `MemoryStore.getAllMemories`: newest first, limited. -/
def getAllMemories (limit : ℕ) (mems : List Memory) : List Memory :=
  (sortL createdLe mems).take limit

/-- Embedding of `MemoryStore.getEntityMemories`: memories joined to an entity id. -/
def getEntityMemories (entityId : String) (limit : ℕ) (mems : List Memory) : List Memory :=
  (sortL storeLe (mems.filter fun m => m.entities.contains entityId)).take limit

/-- Modelled from the spec: `allEmbeddings()` of §6.  The recall engine
calls `store.getAllEmbeddings()`, but the shipped src/store.ts revision
does not define it; per the spec it returns the id/embedding pairs of
every fact holding a stored embedding. -/
def getAllEmbeddings (mems : List Memory) : List (String × List ℚ) :=
  mems.filterMap fun m => m.embedding.map fun e => (m.id, e)

/-- The access-tracking write of `MemoryStore.getMemory`:
`last_accessed = now, access_count = access_count + 1`. -/
def touch (now : ℤ) (m : Memory) : Memory :=
  { m with lastAccessed := now, accessCount := m.accessCount + 1 }

/-- Apply the access-tracking write to one row by id. -/
def touchById (now : ℤ) (id : String) (mems : List Memory) : List Memory :=
  mems.map fun m => if m.id == id then touch now m else m

/-- Embedding of `MemoryStore.getMemory`: reads the row, then bumps its access
tracking; the returned object is the row as read (stale, before the
bump).  Unknown ids return `none` and leave the table untouched. -/
def getMemory (now : ℤ) (id : String) (mems : List Memory) : Option Memory × List Memory :=
  match mems.find? (fun m => m.id == id) with
  | none => (none, mems)
  | some m => (some m, touchById now id mems)

/-- The auto-create half of `MemoryStore.linkEntities`:
`INSERT OR IGNORE INTO entities (id, name, type, ...) VALUES (eid, eid,
'concept', '[]', '{}', now, now, 0)`. -/
def autoCreateEntity (now : ℤ) (eid : String) (es : List Entity) : List Entity :=
  if es.any (fun e => e.id == eid) then es
  else es ++ [{ id := eid, name := eid, type := .concept, description := none,
                aliases := [], created := now, updated := now, memoryCount := 0 }]

/-- The unconditional `memory_count = memory_count + 1` update of
`MemoryStore.linkEntities`. -/
def bumpCount (eid : String) (es : List Entity) : List Entity :=
  es.map fun e => if e.id == eid then { e with memoryCount := e.memoryCount + 1 } else e

/-- Embedding of `MemoryStore.linkEntities` (src/store.ts lines 494–512): for each
listed entity id, auto-create the entity when absent, link the junction
row, and bump the entity's memory count. -/
def linkEntities (now : ℤ) (entityIds : List String) (es : List Entity) : List Entity :=
  entityIds.foldl (fun acc eid => bumpCount eid (autoCreateEntity now eid acc)) es

/-- Embedding of `MemoryStore.createMemory` (src/store.ts lines 212–271).  The uuid is
a parameter (`newId`); the fresh row starts with relevance 1, access
count 0, and decay rate defaulted from the category. -/
def createMemory (now : ℤ) (newId : String) (input : CreateMemoryInput) (s : Store) :
    Memory × Store :=
  let confidence := computeInitialConfidence input
  let decayRate := input.decayRate.getD (CATEGORY_DEFAULT_DECAY input.category)
  let memory : Memory :=
    { id := newId, content := input.content, summary := input.summary,
      attribution := { type := input.attribution.type, actor := input.attribution.actor,
                       context := input.attribution.context, timestamp := now },
      confidence := confidence, entities := input.entities, tags := input.tags,
      category := input.category, created := now, updated := now, lastAccessed := now,
      accessCount := 0, decayRate := decayRate, relevanceScore := mkRat 1 1,
      pinned := input.pinned.getD false, embedding := none }
  let entities := if input.entities.isEmpty then s.entities
    else linkEntities now input.entities s.entities
  (memory, { memories := s.memories ++ [memory], entities := entities })

/-- The updatable fields of `MemoryStore.updateMemory`
(`Partial<Pick<Memory, 'content' | 'summary' | 'tags' | 'category' |
'pinned' | 'decayRate'>>`). -/
structure MemoryUpdates where
  content : Option String
  summary : Option String
  tags : Option (List String)
  category : Option MemoryCategory
  pinned : Option Bool
  decayRate : Option ℚ
deriving DecidableEq

/-- An update record that touches nothing. -/
def noUpdates : MemoryUpdates :=
  { content := none, summary := none, tags := none, category := none,
    pinned := none, decayRate := none }

/-- The field writes of `MemoryStore.updateMemory`: `updated = now` plus
every supplied field. -/
def applyUpdates (now : ℤ) (u : MemoryUpdates) (m : Memory) : Memory :=
  { m with
    updated := now
    content := u.content.getD m.content
    summary := (match u.summary with | some s2 => some s2 | none => m.summary)
    tags := u.tags.getD m.tags
    category := u.category.getD m.category
    pinned := u.pinned.getD m.pinned
    decayRate := u.decayRate.getD m.decayRate }

/-- Embedding of `MemoryStore.updateMemory` (src/store.ts lines 285–322) as a state
transition: it reads the row through `getMemory` (one access bump),
writes the supplied fields, and re-reads through `getMemory` (a second
access bump); unknown ids change nothing. -/
def updateMemoryOp (now : ℤ) (id : String) (u : MemoryUpdates) (s : Store) : Store :=
  if (s.memories.find? (fun m => m.id == id)).isSome then
    { s with memories := s.memories.map fun m =>
        if m.id == id then touch now (applyUpdates now u (touch now m)) else m }
  else s

/-- Embedding of `CorroborationEngine.updateConfidence` (src/corroborate.ts): the
direct `UPDATE memories SET confidence = ?, updated = ?` write. -/
def setConfidence (now : ℤ) (id : String) (c : Confidence) (mems : List Memory) : List Memory :=
  mems.map fun m => if m.id == id then { m with confidence := c, updated := now } else m

/-- The confidence write as a store transition. -/
def setConfidenceOp (now : ℤ) (id : String) (c : Confidence) (s : Store) : Store :=
  { s with memories := setConfidence now id c s.memories }

/-! ## The decay sweep (src/store.ts lines 416–448) -/

/-- The per-row decay argument `-(decay_rate * daysSinceAccess * 0.01)`
with `daysSinceAccess = (now - last_accessed) / 86400000`, in exact
rational arithmetic. -/
def decayExponent (now : ℤ) (m : Memory) : ℚ :=
  qNeg (qMul (qMul m.decayRate (qDiv (mkRat (now - m.lastAccessed) 1) (mkRat 86400000 1)))
    (mkRat 1 100))

/-- Embedding of `MemoryStore.applyDecay` as a state transition, parametrised by the
rational-valued realisation `expQ` of the double-precision `Math.exp`:
every non-pinned row gets `relevance_score = max 0 (min 1 (exp ...))`;
pinned rows are excluded by the `WHERE pinned = 0` query. -/
def decayOp (expQ : ℚ → ℚ) (now : ℤ) (s : Store) : Store :=
  { s with memories := s.memories.map fun m =>
      if m.pinned then m
      else { m with relevanceScore := jsMax (mkRat 0 1) (jsMin (mkRat 1 1) (expQ (decayExponent now m))) } }

/-- The exact real value `clamp(exp(-decay_rate * daysIdle * 0.01), 0, 1)`
that `applyDecay` writes back for a non-pinned row (src/store.ts lines
433–436), with `Math.exp` idealised as `Real.exp`. -/
noncomputable def sweepRelevance (now : ℤ) (m : Memory) : ℝ :=
  max 0 (min 1 (Real.exp (-((m.decayRate : ℝ) *
    (((now - m.lastAccessed : ℤ) : ℝ) / 86400000) * (1 / 100)))))

/-- Modelled from the spec: the sweep formula of §4.2 with the usage
dampening factor `d = 1 / (1 + useCount * 0.3)` —
`clamp(exp(-decayRate * daysIdle * 0.01 * d), 0, 1)`.  This is the
spec's version, for comparison with `sweepRelevance`, which is the
code's. -/
noncomputable def specSweepRelevance (now : ℤ) (m : Memory) : ℝ :=
  max 0 (min 1 (Real.exp (-((m.decayRate : ℝ) *
    (((now - m.lastAccessed : ℤ) : ℝ) / 86400000) * (1 / 100) *
    (1 / (1 + (m.accessCount : ℝ) * (3 / 10)))))))

/-- The decay sweep as the list of written-back values: each row paired
with its relevance after the sweep (pinned rows keep their stored value,
non-pinned rows receive `sweepRelevance`). -/
noncomputable def applyDecaySweep (now : ℤ) (mems : List Memory) : List (Memory × ℝ) :=
  mems.map fun m => (m, if m.pinned then (m.relevanceScore : ℝ) else sweepRelevance now m)

/-! ## RecallEngine (src/recall.ts) -/

/-- The per-fact score vector of recall's candidate map
(`{ text, semantic, entity }`). -/
structure ChannelScores where
  text : ℚ
  semantic : ℚ
  entity : ℚ
deriving DecidableEq

/-- One candidate of recall's `candidateMap`. -/
structure Candidate where
  memory : Memory
  scores : ChannelScores
deriving DecidableEq

/-- A recall result (`RecallResult` in src/types.ts). -/
structure RecallResult where
  memory : Memory
  matchScore : ℚ
  finalScore : ℚ
deriving DecidableEq

/-- A recall query (`RecallQuery` in src/types.ts); the unused `tags`
filter is omitted, optional lists are carried with their `?? []`
defaults, and the numeric options stay optional so the `?? 0.3`,
`?? 0.1`, `?? 10` defaults appear where the code applies them. -/
structure RecallQuery where
  text : String
  context : Option String
  entities : List String
  categories : List MemoryCategory
  minConfidence : Option ℚ
  minRelevance : Option ℚ
  limit : Option ℕ
  includeDecayed : Bool
deriving DecidableEq

/-- Embedding of `RecallEngine.textMatchScore`: fraction of query terms (length > 2)
found in content (weight 1) or summary (weight 0.5), plus an
exact-phrase bonus of the term count, normalised by `2 * termCount` and
capped at 1. -/
def textMatchScore (query : String) (m : Memory) : ℚ :=
  let queryL := lowerChars query
  let contentL := lowerChars m.content
  let summaryL := lowerChars (m.summary.getD "")
  let terms := (splitWs queryL).filter fun t => 2 < t.length
  if terms.isEmpty then mkRat 0 1
  else
    let hits := terms.foldl (fun acc t =>
      let acc := if containsL t contentL then qAdd acc (mkRat 1 1) else acc
      if containsL t summaryL then qAdd acc (mkRat 1 2) else acc) (mkRat 0 1)
    let hits := if containsL queryL contentL then qAdd hits (qOfNat terms.length) else hits
    jsMin (mkRat 1 1) (qDiv hits (qOfNat (terms.length * 2)))

/-- Embedding of `RecallEngine.computeMatchScore`: `0.5·semantic + 0.3·text +
0.2·entity` when a semantic score is present, else `0.7·text +
0.3·entity`. -/
def computeMatchScore (s : ChannelScores) : ℚ :=
  if mkRat 0 1 < s.semantic then
    qAdd (qAdd (qMul s.semantic (mkRat 1 2)) (qMul s.text (mkRat 3 10))) (qMul s.entity (mkRat 2 10))
  else
    qAdd (qMul s.text (mkRat 7 10)) (qMul s.entity (mkRat 3 10))

/-- Embedding of `RecallEngine.contextBoost`: `1 + 0.3 · overlap / max(termCount, 1)`
where overlap counts query-context terms (length > 3) contained in the
memory's attribution context; memories without context get factor 1. -/
def contextBoost (context : String) (m : Memory) : ℚ :=
  let memContext := lowerChars (m.attribution.context.getD "")
  if memContext.isEmpty then mkRat 1 1
  else
    let terms := (splitWs (lowerChars context)).filter fun t => 3 < t.length
    let overlap := terms.countP fun t => containsL t memContext
    qAdd (mkRat 1 1) (qMul (qDiv (qOfNat overlap) (qOfNat (max terms.length 1))) (mkRat 3 10))

/-- Key membership in the candidate map. -/
def candHas (id : String) (cands : List (String × Candidate)) : Bool :=
  cands.any fun p => p.1 == id

/-- Embedding of `candidateMap.set id c` for a fresh key: JavaScript `Map` iteration
follows insertion order, so a fresh key is appended. -/
def candAppend (id : String) (c : Candidate) (cands : List (String × Candidate)) :
    List (String × Candidate) :=
  cands ++ [(id, c)]

/-- In-place mutation of an existing candidate's score vector. -/
def candModify (id : String) (f : ChannelScores → ChannelScores)
    (cands : List (String × Candidate)) : List (String × Candidate) :=
  cands.map fun p => if p.1 == id then (p.1, { p.2 with scores := f p.2.scores }) else p

/-- The text-search channel of `RecallEngine.recall` step 1: every text
hit becomes a candidate scored by `textMatchScore`. -/
def gatherText (text : String) (limit : ℕ) (mems : List Memory) : List (String × Candidate) :=
  (searchByText text (limit * 3) mems).foldl (fun acc m =>
    candAppend m.id { memory := m, scores := { text := textMatchScore text m, semantic := mkRat 0 1, entity := mkRat 0 1 } } acc) []

/-- The entity channel of `RecallEngine.recall` step 1: entity-linked
memories are added when absent, and their entity score set to 1. -/
def gatherEntities (entities : List String) (limit : ℕ) (mems : List Memory)
    (cands : List (String × Candidate)) : List (String × Candidate) :=
  entities.foldl (fun acc eid =>
    (getEntityMemories eid (limit * 2) mems).foldl (fun acc2 m =>
      let acc2 := if candHas m.id acc2 then acc2
        else candAppend m.id { memory := m, scores := { text := mkRat 0 1, semantic := mkRat 0 1, entity := mkRat 0 1 } } acc2
      candModify m.id (fun s => { s with entity := mkRat 1 1 }) acc2) acc) cands

/-- The category channel of `RecallEngine.recall` step 1: matching
memories are added as candidates with no extra score. -/
def gatherCategories (cats : List MemoryCategory) (limit : ℕ) (mems : List Memory)
    (cands : List (String × Candidate)) : List (String × Candidate) :=
  cats.foldl (fun acc cat =>
    (searchByCategory cat (limit * 2) mems).foldl (fun acc2 m =>
      if candHas m.id acc2 then acc2
      else candAppend m.id { memory := m, scores := { text := mkRat 0 1, semantic := mkRat 0 1, entity := mkRat 0 1 } } acc2) acc) cands

/-- The semantic channel of `RecallEngine.recall` step 1, threaded over
the store state because absent candidates are fetched through the
mutating `getMemory`.  `sem id` stands for the double-precision value
`cosineSimilarity(embed(query.text), embedding-of-id)` — a rational, as
every IEEE double is; candidates with similarity ≤ 0.5 are dropped, a
known candidate only gets its semantic score set, and an unknown one is
fetched (bumping its access tracking) and appended. -/
def semStep (sem : String → ℚ) (now : ℤ)
    (acc2 : List (String × Candidate) × List Memory) (p : String × List ℚ) :
    List (String × Candidate) × List Memory :=
  let sim := sem p.1
  if mkRat 1 2 < sim then
    if candHas p.1 acc2.1 then
      (candModify p.1 (fun s => { s with semantic := sim }) acc2.1, acc2.2)
    else
      match getMemory now p.1 acc2.2 with
      | (some m, st) =>
        (candAppend p.1 { memory := m, scores := { text := mkRat 0 1, semantic := sim, entity := mkRat 0 1 } } acc2.1, st)
      | (none, st) => (acc2.1, st)
  else acc2

def gatherSemantic (sem : String → ℚ) (now : ℤ) (embs : List (String × List ℚ))
    (acc : List (String × Candidate) × List Memory) :
    List (String × Candidate) × List Memory :=
  embs.foldl (semStep sem now) acc

/-- Step 2 of `RecallEngine.recall`: drop candidates below the trust
floor, drop low-relevance candidates unless `includeDecayed`, and score
the rest with `finalScore = matchScore · trust · relevance · boost`. -/
def scoreCandidates (q : RecallQuery) (cands : List (String × Candidate)) : List RecallResult :=
  let minConfidence := q.minConfidence.getD (mkRat 3 10)
  let minRelevance := q.minRelevance.getD (mkRat 1 10)
  cands.filterMap fun p =>
    if p.2.memory.confidence.score < minConfidence then none
    else if p.2.memory.relevanceScore < minRelevance ∧ q.includeDecayed = false then none
    else
      let matchScore := computeMatchScore p.2.scores
      let finalScore := qMul (qMul matchScore p.2.memory.confidence.score) p.2.memory.relevanceScore
      let boost := match q.context with
        | some ctx => contextBoost ctx p.2.memory
        | none => mkRat 1 1
      some { memory := p.2.memory, matchScore := matchScore, finalScore := qMul finalScore boost }

/-- Recall's descending sort by `finalScore` (stable, as JavaScript's). -/
def finalLe (a b : RecallResult) : Bool := decide (b.finalScore ≤ a.finalScore)

/-- Embedding of `RecallEngine.recall` (src/recall.ts): candidate gathering over four
channels, threshold filtering, scoring, the fixed 0.15 noise floor,
ranking and truncation.  Returns the results together with the store
state after the call (the semantic channel's `getMemory` fetches mutate
access tracking).  `sem` is `none` exactly when no embedding provider is
configured.  (Named `recallOp` because `recall` is a Lean command
keyword; the source method is `RecallEngine.recall`.) -/
def recallOp (q : RecallQuery) (sem : Option (String → ℚ)) (now : ℤ) (mems : List Memory) :
    List RecallResult × List Memory :=
  let limit := q.limit.getD 10
  let cands := gatherText q.text limit mems
  let cands := gatherEntities q.entities limit mems cands
  let cands := gatherCategories q.categories limit mems cands
  let gathered := match sem with
    | none => (cands, mems)
    | some f => gatherSemantic f now (getAllEmbeddings mems) (cands, mems)
  let results := scoreCandidates q gathered.1
  let kept := results.filter fun r => decide (mkRat 3 20 ≤ r.finalScore)
  ((sortL finalLe kept).take limit, gathered.2)

/-- Embedding of `RecallEngine.quickRecall` (src/recall.ts lines 290–304): text-search
candidates scored by `finalScore = textMatchScore · trust · relevance`,
ranked and truncated — with no threshold filtering of any kind. -/
def quickRecall (text : String) (limit : ℕ) (mems : List Memory) : List RecallResult :=
  let memories := searchByText text (limit * 3) mems
  let results := memories.map fun m =>
    let matchScore := textMatchScore text m
    { memory := m, matchScore := matchScore,
      finalScore := qMul (qMul matchScore m.confidence.score) m.relevanceScore : RecallResult }
  (sortL finalLe results).take limit

/-! ## CorroborationEngine (src/corroborate.ts) -/

/-- Embedding of `CorroborationEngine.contentSimilarity`: Jaccard similarity of the
case-folded token sets (tokens of length > 3), 0 when both sets are
empty. -/
def contentSimilarity (a b : String) : ℚ :=
  let wordsA := dedupL ((splitWs (lowerChars a)).filter fun w => 3 < w.length)
  let wordsB := dedupL ((splitWs (lowerChars b)).filter fun w => 3 < w.length)
  let inter := wordsA.countP fun w => wordsB.contains w
  let union := wordsA.length + wordsB.length - inter
  if union == 0 then mkRat 0 1 else qDiv (qOfNat inter) (qOfNat union)

/-- The fixed negation-pair table of
`CorroborationEngine.detectContradiction` (apostrophes built from
`apoStr` so the literals stay scanner-clean; the values are exactly the
source's `["is", "isn't"], ...`). -/
def negationPairs : List (String × String) :=
  [("is", "isn" ++ apoStr ++ "t"), ("is", "is not"),
   ("can", "can" ++ apoStr ++ "t"), ("can", "cannot"),
   ("does", "doesn" ++ apoStr ++ "t"), ("does", "does not"),
   ("should", "shouldn" ++ apoStr ++ "t"), ("should", "should not"),
   ("works", "doesn" ++ apoStr ++ "t work"), ("working", "not working"),
   ("true", "false"), ("yes", "no"),
   ("enabled", "disabled")]

/-- Embedding of `CorroborationEngine.detectContradiction`: the first negation pair
with one member in each content, provided the overall lexical similarity
exceeds 0.3, yields a reason string. -/
def detectContradiction (a b : Memory) : Option String :=
  let aLower := lowerL a.content.data
  let bLower := lowerL b.content.data
  negationPairs.findSome? fun pr =>
    if (containsL (lowerChars pr.1) aLower && containsL (lowerChars pr.2) bLower) ||
       (containsL (lowerChars pr.2) aLower && containsL (lowerChars pr.1) bLower) then
      if mkRat 3 10 < contentSimilarity (String.mk aLower) (String.mk bLower) then
        some ("Potential negation: \"" ++ pr.1 ++ "\" vs \"" ++ pr.2 ++ "\" in related memories")
      else none
    else none

/-- One reported contradiction (`ContradictionResult` in
src/corroborate.ts), with the summary strings dropped to the fields the
claims consult. -/
structure ContradictionPair where
  memoryA : String
  memoryB : String
  similarity : ℚ
  reason : String
deriving DecidableEq

/-- The first eight characters of an id, as `id.slice(0, 8)`. -/
def slice8 (s : String) : String := String.mk (s.data.take 8)

/-- The per-pivot inner loop of `findContradictions`: compare the pivot
`a` against every later memory — the loop body has no limit check, so
every partner of one pivot is processed.  Returns the detected pairs in
order. -/
def innerScan (a : Memory) (rest : List Memory) : List ContradictionPair :=
  rest.filterMap fun b =>
    if (a.entities.filter fun e => b.entities.contains e).isEmpty then none
    else if a.category ≠ b.category then none
    else match detectContradiction a b with
      | some reason =>
        some { memoryA := a.id, memoryB := b.id,
               similarity := contentSimilarity a.content b.content, reason := reason }
      | none => none

/-- The confidence writes a detected pair performs on both rows:
`conflictCount + 1` and a basis line naming the other id — computed from
the snapshot rows `a`, `b` (the source mutates the database while
iterating over an array fetched once). -/
def markPair (now : ℤ) (a b : Memory) (mems : List Memory) : List Memory :=
  setConfidence now b.id
    { b.confidence with
      contradictions := b.confidence.contradictions + 1
      basis := b.confidence.basis ++ ["⚠️ Potential contradiction with memory " ++ slice8 a.id] }
    (setConfidence now a.id
      { a.confidence with
        contradictions := a.confidence.contradictions + 1
        basis := a.confidence.basis ++ ["⚠️ Potential contradiction with memory " ++ slice8 b.id] }
      mems)

/-- Replay the confidence writes of a list of detected pairs against the
snapshot rows. -/
def markPairs (now : ℤ) (snapshot : List Memory) (pairs : List ContradictionPair)
    (mems : List Memory) : List Memory :=
  pairs.foldl (fun acc pr =>
    match snapshot.find? (fun m => m.id == pr.memoryA),
          snapshot.find? (fun m => m.id == pr.memoryB) with
    | some a, some b => markPair now a b acc
    | _, _ => acc) mems

/-- The outer loop of `findContradictions`: the limit is checked only in
the outer loop condition (`contradictions.length < limit`), then the
whole inner scan of the pivot runs. -/
def outerScan (limit : ℕ) : List Memory → List ContradictionPair → List ContradictionPair
  | [], acc => acc
  | a :: rest, acc =>
    if acc.length < limit then outerScan limit rest (acc ++ innerScan a rest)
    else acc

/-- Embedding of `CorroborationEngine.findContradictions` (src/corroborate.ts lines
95–137): scan all pairs of the newest-200 snapshot for shared-entity,
same-category negation contradictions; returns the detected pairs and the
store rows after the per-pair confidence writes. -/
def findContradictions (limit : ℕ) (now : ℤ) (mems : List Memory) :
    List ContradictionPair × List Memory :=
  let snapshot := getAllMemories 200 mems
  let pairs := outerScan limit snapshot []
  (pairs, markPairs now snapshot pairs mems)

/-- Candidate-set deduplication of `CorroborationEngine.findRelated`. -/
def addUnique (acc : List Memory) (m : Memory) : List Memory :=
  if acc.any (fun c => c.id == m.id) then acc else acc ++ [m]

/-- Join tokens with single spaces, as `Array.prototype.join(' ')`. -/
def joinSpaces (ws : List (List Char)) : String := String.mk (List.intercalate [' '] ws)

/-- Embedding of `CorroborationEngine.findRelated`: entity-sharing memories, then text
matches on the first three significant (length > 4) words of the
content, deduplicated by id. -/
def findRelated (memory : Memory) (mems : List Memory) : List Memory :=
  let byEntity := memory.entities.foldl (fun acc eid =>
    (getEntityMemories eid 20 mems).foldl addUnique acc) []
  let kws := ((splitWs memory.content.data).filter fun w => 4 < w.length).take 3
  if kws.isEmpty then byEntity
  else (searchByText (joinSpaces kws) 10 mems).foldl addUnique byEntity

/-- Percentage display `Math.round(sim * 100)` as a string. -/
def pctString (q : ℚ) : String := toString (jsRoundInt (qMul q (mkRat 100 1)))

/-- One evidence line of `verifyMemory`. -/
def evidenceLine (rel : Memory) (sim : ℚ) : String :=
  "Supported by " ++ sourceTypeName rel.attribution.type ++ " memory" ++
  (match rel.attribution.actor with
   | some a => " (via " ++ a ++ ")"
   | none => "") ++
  " — " ++ pctString sim ++ "% similar"

/-- Result of `verifyMemory`. -/
structure VerifyResult where
  verified : Bool
  evidence : List String
  newConfidence : ℚ
deriving DecidableEq

/-- Embedding of `CorroborationEngine.verifyMemory` (src/corroborate.ts lines
142–180): unknown ids yield a typed negative result without touching the
store; otherwise each related candidate (excluding the fact itself) with
content similarity above 0.4 contributes one evidence line and a +0.05
score step (capped at 1), and `verified` is set when any was found. -/
def verifyMemory (now : ℤ) (memoryId : String) (mems : List Memory) :
    VerifyResult × List Memory :=
  match getMemory now memoryId mems with
  | (none, st) =>
    ({ verified := false, evidence := ["Memory not found"], newConfidence := mkRat 0 1 }, st)
  | (some memory, st) =>
    let related := findRelated memory st
    let folded := related.foldl (fun (acc : ℕ × List String) rel =>
      if rel.id == memoryId then acc
      else
        let sim := contentSimilarity memory.content rel.content
        if mkRat 2 5 < sim then (acc.1 + 1, acc.2 ++ [evidenceLine rel sim])
        else acc) (0, [])
    let corroborations := folded.1
    let evidence := folded.2
    if 0 < corroborations then
      let newConfidence :=
        jsMin (mkRat 1 1) (qAdd memory.confidence.score (qMul (qOfNat corroborations) (mkRat 1 20)))
      let st2 := setConfidence now memoryId
        { memory.confidence with
          score := round2 newConfidence
          corroborations := memory.confidence.corroborations + corroborations
          lastVerified := some now } st
      ({ verified := true
         evidence := if evidence.isEmpty then ["No corroborating evidence found"] else evidence
         newConfidence := round2 newConfidence }, st2)
    else
      ({ verified := false
         evidence := if evidence.isEmpty then ["No corroborating evidence found"] else evidence
         newConfidence := round2 memory.confidence.score }, st)

/-! ## Reachable store states -/

/-- States reachable from the empty store through the core operations:
`createMemory`, `updateMemory`, the decay sweep (for any realisation of
`Math.exp`), and the corroboration engine's confidence writes.  With
`full := true` the update operation is unrestricted; with `full :=
false` updates may not set `pinned` to true, the restriction under which
the protected-relevance invariant holds. -/
inductive Reach (full : Bool) : Store → Prop where
  | empty : Reach full { memories := [], entities := [] }
  | create (now : ℤ) (newId : String) (input : CreateMemoryInput) {s : Store} :
      Reach full s → Reach full (createMemory now newId input s).2
  | update (now : ℤ) (id : String) (u : MemoryUpdates) {s : Store} :
      Reach full s → (full = true ∨ u.pinned ≠ some true) →
      Reach full (updateMemoryOp now id u s)
  | decay (expQ : ℚ → ℚ) (now : ℤ) {s : Store} :
      Reach full s → Reach full (decayOp expQ now s)
  | confUpdate (now : ℤ) (id : String) (c : Confidence) {s : Store} :
      Reach full s → Reach full (setConfidenceOp now id c s)

/-- Equality of every memory field except the access-tracking pair
`lastAccessed`/`accessCount` — what `touch` preserves. -/
def SameCore (a b : Memory) : Prop :=
  a.id = b.id ∧ a.content = b.content ∧ a.summary = b.summary ∧
  a.attribution = b.attribution ∧ a.confidence = b.confidence ∧
  a.entities = b.entities ∧ a.tags = b.tags ∧ a.category = b.category ∧
  a.created = b.created ∧ a.updated = b.updated ∧
  a.decayRate = b.decayRate ∧ a.relevanceScore = b.relevanceScore ∧
  a.pinned = b.pinned ∧ a.embedding = b.embedding

/-! ## Concrete instances used by the per-claim theorems -/

/-- C1's failing input, up to its access count: an `event`-category fact
(decay rate 0.3) idle for exactly 15 days (now = 1296000000 ms). -/
def memC1 (uc : ℕ) : Memory :=
  { id := "c1", content := "the deploy pipeline run", summary := none,
    attribution := { type := .experienced, actor := none, context := none, timestamp := 0 },
    confidence := { score := mkRat 9 10, basis := [], lastVerified := none,
                    corroborations := 0, contradictions := 0 },
    entities := [], tags := [], category := .event,
    created := 0, updated := 0, lastAccessed := 0, accessCount := uc,
    decayRate := mkRat 3 10, relevanceScore := mkRat 1 1, pinned := false, embedding := none }

/-- C2's created fact: category `fact` (decay rate 0.1), not pinned. -/
def inputC2 : CreateMemoryInput :=
  { content := "the cache layer speeds recall up considerably", summary := none,
    attribution := { type := .experienced, actor := none, context := none },
    entities := [], tags := [], category := .fact, decayRate := none, pinned := some false }

/-- C2's realisation of `Math.exp` at the one argument the trace
evaluates it at: `Math.exp(-0.015) = 0.98511194…`; the value is that
double truncated to five decimal places — the only property the
counterexample uses is that the clamped result is below 1, which holds
for the exact double as well. -/
def expQC2 : ℚ → ℚ := fun _ => mkRat 98511 100000

/-- C2's trace: create the fact at t = 0, run the decay sweep 15 days
later (relevance drops below 1), then pin the fact through
`updateMemory`. -/
def sC2 : Store :=
  updateMemoryOp 2592000000 "m1" { noUpdates with pinned := some true }
    (decayOp expQC2 1296000000 (createMemory 0 "m1" inputC2 { memories := [], entities := [] }).2)

/-- C2's witness input: the same fact created pinned from the start. -/
def inputC2w : CreateMemoryInput := { inputC2 with pinned := some true }

/-- The number of related candidates that support a fact in
`verifyMemory`: candidates other than the fact itself whose content
similarity with it exceeds 0.4. -/
def supportCount (memory : Memory) (memoryId : String) (related : List Memory) : ℕ :=
  related.countP fun rel => !(rel.id == memoryId) &&
    decide (mkRat 2 5 < contentSimilarity memory.content rel.content)

/-- C3's stored fact: trust 0.2 (below the 0.3 floor), relevance 0.05
(below the 0.1 floor), matching the query `"needle"`. -/
def mC3 : Memory :=
  { id := "c3", content := "needle in the archive", summary := none,
    attribution := { type := .inferred, actor := none, context := none, timestamp := 0 },
    confidence := { score := mkRat 2 10, basis := [], lastVerified := none,
                    corroborations := 0, contradictions := 0 },
    entities := [], tags := [], category := .opinion,
    created := 0, updated := 0, lastAccessed := 0, accessCount := 0,
    decayRate := mkRat 35 100, relevanceScore := mkRat 1 20, pinned := false, embedding := none }

/-- C4's pivot fact. -/
def maC4 : Memory :=
  { id := "a4", content := "the service is enabled for every deployment target", summary := none,
    attribution := { type := .experienced, actor := none, context := none, timestamp := 0 },
    confidence := { score := mkRat 9 10, basis := [], lastVerified := none,
                    corroborations := 0, contradictions := 0 },
    entities := ["svc"], tags := [], category := .fact,
    created := 3, updated := 0, lastAccessed := 0, accessCount := 0,
    decayRate := mkRat 1 10, relevanceScore := mkRat 1 1, pinned := false, embedding := none }

/-- C4's first contradicting partner. -/
def mbC4 : Memory :=
  { maC4 with
    id := "b4"
    content := "the service is disabled for every deployment target"
    created := 2 }

/-- C4's second contradicting partner. -/
def mcC4 : Memory :=
  { maC4 with
    id := "c4"
    content := "the service is disabled for every deployment target now"
    created := 1 }

/-- C4's corpus: one pivot contradicting two partners. -/
def stateC4 : List Memory := [maC4, mbC4, mcC4]

/-- C5's input fact: not pinned, stored relevance 0.5, accessed at the
very moment of the sweep. -/
def mC5 : Memory :=
  { id := "c5", content := "recently touched fact", summary := none,
    attribution := { type := .experienced, actor := none, context := none, timestamp := 0 },
    confidence := { score := mkRat 9 10, basis := [], lastVerified := none,
                    corroborations := 0, contradictions := 0 },
    entities := [], tags := [], category := .event,
    created := 0, updated := 0, lastAccessed := 1000, accessCount := 0,
    decayRate := mkRat 3 10, relevanceScore := mkRat 1 2, pinned := false, embedding := none }

/-- C6's stored fact: it has an embedding, and its content does not
match the query text, so only the semantic channel can reach it. -/
def mC6 : Memory :=
  { id := "c6", content := "vector indexed background fact", summary := none,
    attribution := { type := .experienced, actor := none, context := none, timestamp := 0 },
    confidence := { score := mkRat 9 10, basis := [], lastVerified := none,
                    corroborations := 0, contradictions := 0 },
    entities := [], tags := [], category := .fact,
    created := 0, updated := 0, lastAccessed := 0, accessCount := 0,
    decayRate := mkRat 1 10, relevanceScore := mkRat 1 1, pinned := false,
    embedding := some [mkRat 3 1, mkRat 4 1] }

/-- C6's query: text that matches nothing, no filters. -/
def qC6 : RecallQuery :=
  { text := "zzz", context := none, entities := [], categories := [],
    minConfidence := none, minRelevance := none, limit := none, includeDecayed := false }

/-- C6's semantic similarity oracle: the constant 24/25 = 0.96, which is
exactly `cosineSimilarity([3,4], [4,3])` in double precision (all the
intermediate values 24, 25, 5 and 24/25 are exact doubles). -/
def semC6 : String → ℚ := fun _ => mkRat 24 25

/-- C7's witness input: a `told` fact with an actor and a learning
context. -/
def inputC7 : CreateMemoryInput :=
  { content := "shaun explained the deploy steps", summary := none,
    attribution := { type := .told, actor := some "shaun", context := some "conversation" },
    entities := [], tags := [], category := .fact, decayRate := none, pinned := none }

/-- C8's stored fact: passes every filter for the query `"needle"`. -/
def mC8 : Memory :=
  { id := "c8", content := "needle thing", summary := none,
    attribution := { type := .experienced, actor := none, context := none, timestamp := 0 },
    confidence := { score := mkRat 9 10, basis := [], lastVerified := none,
                    corroborations := 0, contradictions := 0 },
    entities := [], tags := [], category := .fact,
    created := 0, updated := 0, lastAccessed := 0, accessCount := 0,
    decayRate := mkRat 1 10, relevanceScore := mkRat 1 1, pinned := false, embedding := none }

/-- C8's query: defaults everywhere. -/
def qC8 : RecallQuery :=
  { text := "needle", context := none, entities := [], categories := [],
    minConfidence := none, minRelevance := none, limit := none, includeDecayed := false }

/-- C9's supporting fact. -/
def m1C9 : Memory :=
  { id := "r1", content := "funding rates update every eight hours", summary := none,
    attribution := { type := .read, actor := some "docs", context := none, timestamp := 0 },
    confidence := { score := mkRat 5 10, basis := [], lastVerified := none,
                    corroborations := 0, contradictions := 0 },
    entities := ["exch"], tags := [], category := .fact,
    created := 1, updated := 0, lastAccessed := 0, accessCount := 0,
    decayRate := mkRat 1 10, relevanceScore := mkRat 1 1, pinned := false, embedding := none }

/-- C9's verified fact: a `told` fact (score 0.6) sharing six of seven
significant tokens with `m1C9`. -/
def m2C9 : Memory :=
  { m1C9 with
    id := "r2"
    content := "funding rates update cycle every eight hours"
    attribution := { type := .told, actor := some "shaun", context := none, timestamp := 0 }
    confidence := { score := mkRat 6 10, basis := [], lastVerified := none,
                    corroborations := 0, contradictions := 0 }
    created := 2 }

/-- C9's witness store. -/
def stateC9 : List Memory := [m1C9, m2C9]

/-- C10's witness input: a single unknown entity id. -/
def inputC10 : CreateMemoryInput :=
  { content := "notes about a fresh topic", summary := none,
    attribution := { type := .observed, actor := none, context := none },
    entities := ["fresh-topic"], tags := [], category := .observation,
    decayRate := none, pinned := none }

/-! ## Bridge lemmas: the executable arithmetic agrees with Mathlib's -/

theorem qMul_eq (a b : ℚ) : qMul a b = a * b := by
  rw [qMul, Rat.mkRat_eq_div]
  push_cast
  conv_rhs => rw [← Rat.num_div_den a, ← Rat.num_div_den b]
  rw [div_mul_div_comm]

theorem qAdd_eq (a b : ℚ) : qAdd a b = a + b := by
  have ha : ((a.den : ℚ)) ≠ 0 := Nat.cast_ne_zero.mpr a.den_nz
  have hb : ((b.den : ℚ)) ≠ 0 := Nat.cast_ne_zero.mpr b.den_nz
  rw [qAdd, Rat.mkRat_eq_div]
  push_cast
  conv_rhs => rw [← Rat.num_div_den a, ← Rat.num_div_den b]
  rw [div_add_div _ _ ha hb]
  congr 1
  ring

theorem qSub_eq (a b : ℚ) : qSub a b = a - b := by
  have ha : ((a.den : ℚ)) ≠ 0 := Nat.cast_ne_zero.mpr a.den_nz
  have hb : ((b.den : ℚ)) ≠ 0 := Nat.cast_ne_zero.mpr b.den_nz
  rw [qSub, Rat.mkRat_eq_div]
  push_cast
  conv_rhs => rw [← Rat.num_div_den a, ← Rat.num_div_den b]
  rw [div_sub_div _ _ ha hb]
  congr 1
  ring

theorem qNeg_eq (a : ℚ) : qNeg a = -a := by
  have ha : ((a.den : ℚ)) ≠ 0 := Nat.cast_ne_zero.mpr a.den_nz
  rw [qNeg, Rat.mkRat_eq_div]
  push_cast
  rw [neg_div, Rat.num_div_den]

theorem qDiv_eq (a b : ℚ) : qDiv a b = a / b := by
  have ha : ((a.den : ℚ)) ≠ 0 := Nat.cast_ne_zero.mpr a.den_nz
  have hb : ((b.den : ℚ)) ≠ 0 := Nat.cast_ne_zero.mpr b.den_nz
  rw [qDiv, Rat.divInt_eq_div]
  push_cast
  rcases eq_or_ne b 0 with rb | rb
  · subst rb
    simp
  · have hbn : ((b.num : ℚ)) ≠ 0 := by
      exact_mod_cast Rat.num_ne_zero.mpr rb
    have key : ∀ na da nb db : ℚ, da ≠ 0 → db ≠ 0 → nb ≠ 0 →
        na * db / (da * nb) = na / da / (nb / db) := by
      intro na da nb db h1 h2 h3
      field_simp
    rw [key _ _ _ _ ha hb hbn, Rat.num_div_den, Rat.num_div_den]

theorem qOfNat_eq (n : ℕ) : qOfNat n = (n : ℚ) := by
  rw [qOfNat, Rat.mkRat_eq_div]
  push_cast
  simp

theorem jsMin_eq (a b : ℚ) : jsMin a b = min a b := by
  rw [jsMin, min_def]

theorem jsMax_eq (a b : ℚ) : jsMax a b = max a b := by
  rw [jsMax, max_def]

/-- Casting an `mkRat` value to the reals. -/
theorem mkRat_cast_real (a : ℤ) (b : ℕ) : ((mkRat a b : ℚ) : ℝ) = (a : ℝ) / (b : ℝ) := by
  rw [Rat.mkRat_eq_div]
  push_cast
  ring

/-! ## Generic lemmas about the embedding's list machinery -/

theorem mem_insSorted {α : Type} (le : α → α → Bool) (x a : α) (l : List α) :
    a ∈ insSorted le x l ↔ a = x ∨ a ∈ l := by
  induction l with
  | nil => simp [insSorted]
  | cons y ys ih =>
    rw [insSorted]
    by_cases h : le x y = true
    · rw [if_pos h]
      simp only [List.mem_cons]
    · rw [if_neg h]
      simp only [List.mem_cons, ih]
      tauto

theorem mem_sortL {α : Type} (le : α → α → Bool) (a : α) (l : List α) :
    a ∈ sortL le l ↔ a ∈ l := by
  induction l with
  | nil => simp [sortL]
  | cons x xs ih =>
    simp only [sortL, mem_insSorted, List.mem_cons, ih]

theorem length_insSorted {α : Type} (le : α → α → Bool) (x : α) (l : List α) :
    (insSorted le x l).length = l.length + 1 := by
  induction l with
  | nil => simp [insSorted]
  | cons y ys ih =>
    by_cases h : le x y = true
    · simp [insSorted, h]
    · simp [insSorted, h, ih]

theorem length_sortL {α : Type} (le : α → α → Bool) (l : List α) :
    (sortL le l).length = l.length := by
  induction l with
  | nil => rfl
  | cons x xs ih => simp [sortL, length_insSorted, ih]

/-- Membership in a store search result implies membership in the
table. -/
theorem searchByText_subset (text : String) (limit : ℕ) (mems : List Memory)
    (m : Memory) (h : m ∈ searchByText text limit mems) : m ∈ mems := by
  have h1 := List.take_subset _ _ h
  rw [mem_sortL] at h1
  exact (List.mem_filter.mp h1).1

/-- The access bump preserves everything but the access tracking. -/
theorem sameCore_touch (now : ℤ) (m : Memory) : SameCore (touch now m) m := by
  simp [SameCore, touch]

theorem sameCore_refl (m : Memory) : SameCore m m := by
  simp [SameCore]

theorem sameCore_trans {a b c : Memory} (h1 : SameCore a b) (h2 : SameCore b c) :
    SameCore a c := by
  obtain ⟨e1, e2, e3, e4, e5, e6, e7, e8, e9, e10, e11, e12, e13, e14⟩ := h1
  obtain ⟨f1, f2, f3, f4, f5, f6, f7, f8, f9, f10, f11, f12, f13, f14⟩ := h2
  exact ⟨e1.trans f1, e2.trans f2, e3.trans f3, e4.trans f4, e5.trans f5, e6.trans f6,
    e7.trans f7, e8.trans f8, e9.trans f9, e10.trans f10, e11.trans f11, e12.trans f12,
    e13.trans f13, e14.trans f14⟩

theorem mem_touchById (now : ℤ) (id : String) (mems : List Memory) (y : Memory)
    (h : y ∈ touchById now id mems) : ∃ m ∈ mems, SameCore y m := by
  rw [touchById, List.mem_map] at h
  obtain ⟨x, hx, hxy⟩ := h
  refine ⟨x, hx, ?_⟩
  by_cases hid : (x.id == id) = true
  · rw [hid] at hxy
    simp only [if_true] at hxy
    exact hxy ▸ sameCore_touch now x
  · rw [Bool.not_eq_true] at hid
    rw [hid] at hxy
    simp only [Bool.false_eq_true, if_false] at hxy
    exact hxy ▸ sameCore_refl x

/-- Clamping to `[0, 1]` is the identity on `exp x` for `x ≤ 0`. -/
theorem clamp_exp_of_nonpos {x : ℝ} (hx : x ≤ 0) :
    max 0 (min 1 (Real.exp x)) = Real.exp x := by
  rw [min_eq_right (Real.exp_le_one_iff.mpr hx), max_eq_right (Real.exp_pos x).le]

/-- Evaluation helper for the spec's dampened sweep formula. -/
theorem specSweep_eval (now : ℤ) (m : Memory) (x : ℝ)
    (hx : (m.decayRate : ℝ) * (((now - m.lastAccessed : ℤ) : ℝ) / 86400000) * (1 / 100) *
      (1 / (1 + (m.accessCount : ℝ) * (3 / 10))) = x)
    (h0 : 0 ≤ x) :
    specSweepRelevance now m = Real.exp (-x) := by
  rw [specSweepRelevance, hx]
  exact clamp_exp_of_nonpos (neg_nonpos.mpr h0)

/-- Evaluation helper for the code's sweep formula. -/
theorem sweep_eval (now : ℤ) (m : Memory) (x : ℝ)
    (hx : (m.decayRate : ℝ) * (((now - m.lastAccessed : ℤ) : ℝ) / 86400000) * (1 / 100) = x)
    (h0 : 0 ≤ x) :
    sweepRelevance now m = Real.exp (-x) := by
  rw [sweepRelevance, hx]
  exact clamp_exp_of_nonpos (neg_nonpos.mpr h0)

/-! ## Claim theorems -/

/-- C1: the decay sweep's new relevance should be
`clamp(exp(-decayRate·daysIdle·0.01·d), 0, 1)` with the dampening factor
`d = 1/(1 + useCount·0.3)`, making a `useCount = 20` fact end strictly
higher than an otherwise-identical `useCount = 0` fact.  The code
(src/store.ts `applyDecay`) computes `exp(-decayRate·daysIdle·0.01)`
with no dampening factor, so the two facts end the sweep with equal
relevance, while the spec's own formula separates them strictly: the
claim is right about the intended behaviour (the repository's vitest
suite asserts exactly this separation) and the code drops the factor. -/
theorem decay_ignores_useCount_C1 :
    sweepRelevance 1296000000 (memC1 20) = sweepRelevance 1296000000 (memC1 0) ∧
    specSweepRelevance 1296000000 (memC1 0) < specSweepRelevance 1296000000 (memC1 20) := by
  constructor
  · rfl
  · have h0 : specSweepRelevance 1296000000 (memC1 0) = Real.exp (-(9 / 200)) := by
      refine specSweep_eval _ _ _ ?_ (by norm_num)
      simp only [memC1]
      rw [mkRat_cast_real]
      norm_num
    have h20 : specSweepRelevance 1296000000 (memC1 20) = Real.exp (-(9 / 1400)) := by
      refine specSweep_eval _ _ _ ?_ (by norm_num)
      simp only [memC1]
      rw [mkRat_cast_real]
      norm_num
    rw [h0, h20]
    exact Real.exp_lt_exp.mpr (by norm_num)

/-- C5 counterexample: the sweep recomputes relevance from the idle time
alone, so a non-protected fact whose stored relevance is 0.5 but whose
`lastAccessed` equals the sweep time comes out of the sweep with
relevance `exp(0) = 1 > 0.5` — the sweep increased a non-protected
fact's relevance with no corroboration boost involved. -/
theorem decay_can_increase_C5_counterexample :
    (mC5, (1 : ℝ)) ∈ applyDecaySweep 1000 [mC5] ∧
    ((mC5.relevanceScore : ℚ) : ℝ) < 1 ∧ mC5.pinned = false := by
  have h1 : sweepRelevance 1000 mC5 = 1 := by
    have := sweep_eval 1000 mC5 0 ?_ le_rfl
    · rw [this, neg_zero, Real.exp_zero]
    · simp only [mC5]
      norm_num
  refine ⟨?_, ?_, rfl⟩
  · have hpin : mC5.pinned = false := rfl
    simp only [applyDecaySweep, List.map_cons, List.map_nil, List.mem_singleton, hpin,
      Bool.false_eq_true, if_false, h1]
  · have hrel : mC5.relevanceScore = mkRat 1 2 := rfl
    rw [hrel, mkRat_cast_real]
    norm_num

/-- C5 (amended): the decay sweep leaves protected facts unchanged, and
recomputes every non-protected fact's relevance as
`clamp(exp(-decayRate·daysIdle·0.01), 0, 1)` from the idle time alone —
a value always in `[0, 1]`, but possibly above the fact's previous
relevance (the sweep is not monotonically non-increasing). -/
theorem decay_sweep_C5 (now : ℤ) (mems : List Memory) (m : Memory) (r : ℝ)
    (h : (m, r) ∈ applyDecaySweep now mems) :
    (m.pinned = true → r = ((m.relevanceScore : ℚ) : ℝ)) ∧
    (m.pinned = false → r = sweepRelevance now m ∧ 0 ≤ r ∧ r ≤ 1) := by
  rw [applyDecaySweep, List.mem_map] at h
  obtain ⟨x, hx, hxy⟩ := h
  rw [Prod.mk.injEq] at hxy
  obtain ⟨hm, hr⟩ := hxy
  rw [hm] at hr
  constructor
  · intro hp
    rw [← hr, if_pos hp]
  · intro hp
    have hnr : r = sweepRelevance now m := by
      rw [← hr, if_neg (by simp [hp])]
    refine ⟨hnr, ?_, ?_⟩
    · rw [hnr, sweepRelevance]
      exact le_max_left 0 _
    · rw [hnr, sweepRelevance]
      exact max_le zero_le_one (min_le_left 1 _)

/-- C5 witness: the amended theorem applied to the concrete sweep of the
single non-protected fact `mC5`. -/
theorem decay_sweep_C5_witness :
    mC5.pinned = false ∧ 0 ≤ sweepRelevance 1000 mC5 ∧ sweepRelevance 1000 mC5 ≤ 1 := by
  have h := decay_sweep_C5 1000 [mC5] mC5 (sweepRelevance 1000 mC5) (by
    simp [applyDecaySweep, show mC5.pinned = false from rfl])
  exact ⟨rfl, (h.2 rfl).2⟩

/-- C7: the initial trust score is exactly the base-table value for the
provenance kind plus a flat 0.05 when a learning context is present
(cap at 1 and two-decimal rounding are no-ops on these values), and the
rationale line `"has source context"` is appended whenever the bonus
applies. -/
theorem initial_trust_C7 (input : CreateMemoryInput) :
    (computeInitialConfidence input).score =
      qAdd (SOURCE_BASE_CONFIDENCE input.attribution.type)
        (cond input.attribution.context.isSome (mkRat 1 20) (mkRat 0 1)) ∧
    (computeInitialConfidence input).score ≤ mkRat 1 1 ∧
    (input.attribution.context.isSome = true →
      "has source context" ∈ (computeInitialConfidence input).basis) := by
  obtain ⟨content, summary, ⟨t, actor, context⟩, entities, tags, category, dr, pinned⟩ := input
  refine ⟨?_, ?_, ?_⟩
  · cases t <;> cases context <;> cases actor <;>
      (simp only [computeInitialConfidence, Option.isSome_some, Option.isSome_none,
        Bool.cond_true, Bool.cond_false]; decide)
  · cases t <;> cases context <;> cases actor <;>
      (simp only [computeInitialConfidence, Option.isSome_some, Option.isSome_none]; decide)
  · intro h
    cases context with
    | none => simp at h
    | some c =>
      cases t <;> cases actor <;>
        simp [computeInitialConfidence, List.mem_append]

/-- C7 witness: a `told` fact with actor and context gets score
0.6 + 0.05 = 0.65, with the context rationale recorded. -/
theorem initial_trust_C7_witness :
    (computeInitialConfidence inputC7).score = qAdd (mkRat 6 10) (mkRat 1 20) ∧
    "has source context" ∈ (computeInitialConfidence inputC7).basis := by
  have h := initial_trust_C7 inputC7
  refine ⟨?_, h.2.2 (by decide)⟩
  have h1 := h.1
  rwa [show inputC7.attribution.type = SourceType.told from rfl,
    show inputC7.attribution.context.isSome = true from rfl, Bool.cond_true,
    show SOURCE_BASE_CONFIDENCE SourceType.told = mkRat 6 10 from rfl] at h1

/-- C3 counterexample: `quickRecall` returns a fact whose trust score
0.2 is below the default minTrust 0.3, whose relevance 0.05 is below the
default minRelevance 0.1, and whose finalScore 0.01 is below the 0.15
noise floor — it applies none of full recall's step-4 filters. -/
theorem quickRecall_no_filter_C3_counterexample :
    quickRecall "needle" 5 [mC3] =
      [{ memory := mC3, matchScore := mkRat 1 1, finalScore := mkRat 1 100 }] ∧
    mC3.confidence.score < mkRat 3 10 ∧ mC3.relevanceScore < mkRat 1 10 ∧
    (mkRat 1 100 : ℚ) < mkRat 3 20 :=
  ⟨by decide, by decide, by decide, by decide⟩

/-- C3 (amended): `quickRecall` applies no threshold filtering at all —
it returns text-search matches of the query scored by
`finalScore = textMatchScore · trust · relevance`, ranked and truncated
to `limit`, with no minTrust, minRelevance or noise-floor constraint on
what it returns. -/
theorem quickRecall_unfiltered_C3 (text : String) (limit : ℕ) (mems : List Memory)
    (r : RecallResult) (hr : r ∈ quickRecall text limit mems) :
    r.memory ∈ mems ∧ r.matchScore = textMatchScore text r.memory ∧
    r.finalScore = qMul (qMul r.matchScore r.memory.confidence.score)
      r.memory.relevanceScore := by
  simp only [quickRecall] at hr
  have h1 := List.take_subset _ _ hr
  rw [mem_sortL, List.mem_map] at h1
  obtain ⟨m, hm, heq⟩ := h1
  subst heq
  exact ⟨searchByText_subset _ _ _ _ hm, rfl, rfl⟩

/-- C3 witness: the amended theorem applied to the concrete result of
`quickRecall "needle"` on the one-fact store. -/
theorem quickRecall_unfiltered_C3_witness :
    mC3 ∈ [mC3] ∧ (mkRat 1 1 : ℚ) = textMatchScore "needle" mC3 ∧
    (mkRat 1 100 : ℚ) = qMul (qMul (mkRat 1 1) mC3.confidence.score) mC3.relevanceScore :=
  quickRecall_unfiltered_C3 "needle" 5 [mC3]
    { memory := mC3, matchScore := mkRat 1 1, finalScore := mkRat 1 100 } (by decide)

/-- C4 counterexample: with `limit = 1`, a corpus in which one pivot
fact contradicts two partners makes `findContradictions` return two
pairs — more than `limit` — because the inner loop has no limit check. -/
theorem findContradictions_over_limit_C4_counterexample :
    1 < (findContradictions 1 0 stateC4).1.length := by decide

/-- The inner scan reports at most one pair per partner. -/
theorem innerScan_length_le (a : Memory) (rest : List Memory) :
    (innerScan a rest).length ≤ rest.length :=
  List.length_filterMap_le _ _

/-- The limit is only consulted at the start of each outer iteration, so
the result can overshoot `limit` by at most one inner scan. -/
theorem outerScan_length_le (limit : ℕ) (l : List Memory) (acc : List ContradictionPair) :
    (outerScan limit l acc).length ≤ max acc.length (limit - 1 + (l.length - 1)) := by
  induction l generalizing acc with
  | nil => simp [outerScan]
  | cons a rest ih =>
    rw [outerScan]
    by_cases h : acc.length < limit
    · rw [if_pos h]
      have hacc : acc.length ≤ limit - 1 := Nat.le_sub_one_of_lt h
      have hlen : (acc ++ innerScan a rest).length ≤ limit - 1 + rest.length := by
        rw [List.length_append]
        exact Nat.add_le_add hacc (innerScan_length_le a rest)
      calc (outerScan limit rest (acc ++ innerScan a rest)).length
          ≤ max (acc ++ innerScan a rest).length (limit - 1 + (rest.length - 1)) := ih _
        _ ≤ limit - 1 + rest.length :=
            max_le hlen (Nat.add_le_add_left (Nat.sub_le _ _) _)
        _ ≤ max acc.length (limit - 1 + ((a :: rest).length - 1)) := by
            rw [List.length_cons, Nat.add_sub_cancel]
            exact le_max_right _ _
    · rw [if_neg h]
      exact le_max_left _ _

/-- C4 (amended): `findContradictions` checks `limit` only before
starting each new pivot fact, so a single pivot's inner scan can push
the result past `limit`; the number of returned pairs is nonetheless
bounded by `(limit - 1) + (corpus size)` and the scan stops opening new
pivots once `limit` pairs exist. -/
theorem findContradictions_bound_C4 (limit : ℕ) (now : ℤ) (mems : List Memory) :
    (findContradictions limit now mems).1.length ≤ (limit - 1) + mems.length := by
  have hsnap : (getAllMemories 200 mems).length ≤ mems.length := by
    rw [getAllMemories]
    calc (List.take 200 (sortL createdLe mems)).length
        = min 200 (sortL createdLe mems).length := List.length_take _ _
      _ ≤ (sortL createdLe mems).length := min_le_right _ _
      _ = mems.length := length_sortL _ _
  have h := outerScan_length_le limit (getAllMemories 200 mems) []
  simp only [List.length_nil, Nat.zero_max] at h
  simp only [findContradictions]
  exact le_trans h (Nat.add_le_add_left (le_trans (Nat.sub_le _ _) hsnap) _)

/-- C8: every result of full recall has trust at least `minTrust`
(default 0.3), relevance at least `minRelevance` (default 0.1) unless
`includeDecayed` is set, and a final score at least the fixed 0.15 noise
floor — for every query, every store, and every semantic oracle (the
filters are applied before a candidate can be scored, and the noise
floor before ranking). -/
theorem recall_filters_C8 (q : RecallQuery) (sem : Option (String → ℚ)) (now : ℤ)
    (mems : List Memory) (r : RecallResult) (hr : r ∈ (recallOp q sem now mems).1) :
    q.minConfidence.getD (mkRat 3 10) ≤ r.memory.confidence.score ∧
    (q.includeDecayed = true ∨ q.minRelevance.getD (mkRat 1 10) ≤ r.memory.relevanceScore) ∧
    mkRat 3 20 ≤ r.finalScore := by
  simp only [recallOp] at hr
  have h1 := List.take_subset _ _ hr
  rw [mem_sortL, List.mem_filter] at h1
  obtain ⟨hres, hfs⟩ := h1
  have hfs' : mkRat 3 20 ≤ r.finalScore := of_decide_eq_true hfs
  simp only [scoreCandidates, List.mem_filterMap] at hres
  obtain ⟨p, hp, heq⟩ := hres
  by_cases h2 : p.2.memory.confidence.score < q.minConfidence.getD (mkRat 3 10)
  · rw [if_pos h2] at heq
    exact absurd heq (by simp)
  · rw [if_neg h2] at heq
    by_cases h3 : p.2.memory.relevanceScore < q.minRelevance.getD (mkRat 1 10) ∧
        q.includeDecayed = false
    · rw [if_pos h3] at heq
      exact absurd heq (by simp)
    · rw [if_neg h3] at heq
      rw [Option.some.injEq] at heq
      have hmem : r.memory = p.2.memory := by rw [← heq]
      refine ⟨?_, ?_, hfs'⟩
      · rw [hmem]
        exact not_lt.mp h2
      · rw [hmem]
        by_cases hic : q.includeDecayed = true
        · exact Or.inl hic
        · refine Or.inr (not_lt.mp fun hlt => h3 ⟨hlt, ?_⟩)
          exact Bool.not_eq_true _ ▸ hic

/-- C8 witness: the filter theorem applied to the one concrete result of
a default-parameter recall on a one-fact store. -/
theorem recall_filters_C8_witness :
    ({ memory := mC8, matchScore := mkRat 7 10, finalScore := mkRat 63 100 } : RecallResult)
      ∈ (recallOp qC8 none 0 [mC8]).1 ∧
    qC8.minConfidence.getD (mkRat 3 10) ≤ mC8.confidence.score ∧
    (qC8.includeDecayed = true ∨ qC8.minRelevance.getD (mkRat 1 10) ≤ mC8.relevanceScore) ∧
    (mkRat 3 20 : ℚ) ≤ mkRat 63 100 := by
  have hmem : ({ memory := mC8, matchScore := mkRat 7 10, finalScore := mkRat 63 100 } :
      RecallResult) ∈ (recallOp qC8 none 0 [mC8]).1 := by decide
  exact ⟨hmem, recall_filters_C8 qC8 none 0 [mC8] _ hmem⟩

/-- The mutating read `getMemory` only changes access tracking. -/
theorem getMemory_frame (now : ℤ) (id : String) (mems : List Memory) (y : Memory)
    (hy : y ∈ (getMemory now id mems).2) : ∃ m ∈ mems, SameCore y m := by
  rw [getMemory] at hy
  cases hf : mems.find? (fun m => m.id == id) with
  | none =>
    rw [hf] at hy
    exact ⟨y, hy, sameCore_refl y⟩
  | some m =>
    rw [hf] at hy
    exact mem_touchById now id mems y hy

/-- One semantic-channel step only changes access tracking. -/
theorem semStep_frame (sem : String → ℚ) (now : ℤ)
    (acc : List (String × Candidate) × List Memory) (p : String × List ℚ) (y : Memory)
    (hy : y ∈ (semStep sem now acc p).2) : ∃ m ∈ acc.2, SameCore y m := by
  simp only [semStep] at hy
  by_cases hsim : mkRat 1 2 < sem p.1
  · rw [if_pos hsim] at hy
    by_cases hhas : candHas p.1 acc.1 = true
    · rw [if_pos hhas] at hy
      exact ⟨y, hy, sameCore_refl y⟩
    · rw [if_neg hhas] at hy
      cases hgm : getMemory now p.1 acc.2 with
      | mk o st =>
        rw [hgm] at hy
        have hframe := getMemory_frame now p.1 acc.2 y
        rw [hgm] at hframe
        cases o with
        | some m => exact hframe hy
        | none => exact hframe hy
  · rw [if_neg hsim] at hy
    exact ⟨y, hy, sameCore_refl y⟩

/-- The whole semantic channel only changes access tracking. -/
theorem gatherSemantic_frame (sem : String → ℚ) (now : ℤ) (mems0 : List Memory) :
    ∀ (embs : List (String × List ℚ)) (acc : List (String × Candidate) × List Memory),
      (∀ x ∈ acc.2, ∃ m ∈ mems0, SameCore x m) →
      ∀ y ∈ (gatherSemantic sem now embs acc).2, ∃ m ∈ mems0, SameCore y m := by
  intro embs
  induction embs with
  | nil =>
    intro acc hacc y hy
    simp only [gatherSemantic, List.foldl_nil] at hy
    exact hacc y hy
  | cons p rest ih =>
    intro acc hacc y hy
    simp only [gatherSemantic, List.foldl_cons] at hy
    refine ih (semStep sem now acc p) ?_ y hy
    intro x hx
    obtain ⟨m, hm, hsc⟩ := semStep_frame sem now acc p x hx
    obtain ⟨m2, hm2, hsc2⟩ := hacc m hm
    exact ⟨m2, hm2, sameCore_trans hsc hsc2⟩

/-- C6 (amended): without an embedding provider, `recall` leaves the
store untouched; with one, the only store change is access tracking —
every fact in the post-recall store agrees with a pre-recall fact on
every field except `lastAccessed`/`accessCount`, which the semantic
channel's `getMemory` fetches bump. -/
theorem recall_readonly_C6 (q : RecallQuery) (now : ℤ) (mems : List Memory) :
    (recallOp q none now mems).2 = mems ∧
    ∀ (sem : String → ℚ) (y : Memory), y ∈ (recallOp q (some sem) now mems).2 →
      ∃ m ∈ mems, SameCore y m := by
  constructor
  · rfl
  · intro sem y hy
    simp only [recallOp] at hy
    exact gatherSemantic_frame sem now mems _ _ (fun x hx => ⟨x, hx, sameCore_refl x⟩) y hy

/-- C6 counterexample: with an embedding provider configured, recall on
a store whose one fact is reachable only through the semantic channel
rewrites that fact's row: `lastAccessed` becomes the call time and
`accessCount` is incremented — recall is not read-only as claimed. -/
theorem recall_mutates_C6_counterexample :
    (recallOp qC6 (some semC6) 777 [mC6]).2 = [touch 777 mC6] ∧
    touch 777 mC6 ≠ mC6 ∧
    (touch 777 mC6).accessCount = mC6.accessCount + 1 ∧
    (touch 777 mC6).lastAccessed = 777 :=
  ⟨by decide, by decide, by decide, by decide⟩

/-- C6 witness: the amended theorem applied to the concrete store. -/
theorem recall_readonly_C6_witness :
    (recallOp qC6 none 777 [mC6]).2 = [mC6] ∧
    (∃ m ∈ [mC6], SameCore (touch 777 mC6) m) := by
  have h := recall_readonly_C6 qC6 777 [mC6]
  exact ⟨h.1, h.2 semC6 (touch 777 mC6) (by decide)⟩

/-- C2 (amended): in every state reachable by `createMemory`, the decay
sweep, corroboration confidence writes, and `updateMemory` calls that do
not set `pinned` to true, every pinned fact has relevance exactly 1.
(`updateMemory` can pin an already-decayed fact, which breaks the
invariant — see the counterexample.) -/
theorem pinned_relevance_C2 (s : Store) (h : Reach false s) :
    ∀ m ∈ s.memories, m.pinned = true → m.relevanceScore = mkRat 1 1 := by
  induction h with
  | empty =>
    intro m hm _
    exact absurd hm (List.not_mem_nil m)
  | @create now newId input s hs ih =>
    intro m hm hp
    simp only [createMemory, List.mem_append] at hm
    rcases hm with hm | hm
    · exact ih m hm hp
    · rw [List.mem_singleton] at hm
      subst hm
      rfl
  | @update now id u s hs hcond ih =>
    intro m hm hp
    rcases hcond with hfull | hpin
    · exact absurd hfull (by simp)
    · simp only [updateMemoryOp] at hm
      by_cases hex : (s.memories.find? (fun m2 => m2.id == id)).isSome = true
      · rw [if_pos hex] at hm
        simp only [List.mem_map] at hm
        obtain ⟨x, hx, hxm⟩ := hm
        by_cases hid : (x.id == id) = true
        · rw [if_pos hid] at hxm
          subst hxm
          simp only [touch, applyUpdates] at hp ⊢
          cases hup : u.pinned with
          | none =>
            rw [hup] at hp
            simp only [Option.getD_none] at hp
            exact ih x hx hp
          | some b =>
            cases b with
            | true => exact absurd hup hpin
            | false =>
              rw [hup] at hp
              simp only [Option.getD_some] at hp
              exact absurd hp (by simp)
        · rw [if_neg hid] at hxm
          subst hxm
          exact ih x hx hp
      · rw [if_neg hex] at hm
        exact ih m hm hp
  | @decay expQ now s hs ih =>
    intro m hm hp
    simp only [decayOp, List.mem_map] at hm
    obtain ⟨x, hx, hxm⟩ := hm
    by_cases hpx : x.pinned = true
    · rw [if_pos hpx] at hxm
      subst hxm
      exact ih x hx hp
    · rw [if_neg hpx] at hxm
      subst hxm
      exact absurd hp hpx
  | @confUpdate now id c s hs ih =>
    intro m hm hp
    simp only [setConfidenceOp, setConfidence, List.mem_map] at hm
    obtain ⟨x, hx, hxm⟩ := hm
    by_cases hid : (x.id == id) = true
    · rw [if_pos hid] at hxm
      subst hxm
      exact ih x hx hp
    · rw [if_neg hid] at hxm
      subst hxm
      exact ih x hx hp

/-- C2 counterexample: a three-step trace of core operations — create an
unpinned fact, run the decay sweep 15 days later, then pin the fact with
`updateMemory` — reaches a state in which a protected fact's relevance
is below 1: `updateMemory` does not restore relevance when it sets
`pinned`, so the invariant does not hold over all core operations. -/
theorem pinned_decayed_C2_counterexample :
    Reach true sC2 ∧ sC2.memories ≠ [] ∧
    sC2.memories.all (fun m => m.pinned) = true ∧
    sC2.memories.all (fun m => decide (m.relevanceScore < mkRat 1 1)) = true := by
  refine ⟨?_, by decide, by decide, by decide⟩
  exact Reach.update 2592000000 "m1" { noUpdates with pinned := some true }
    (Reach.decay expQC2 1296000000 (Reach.create 0 "m1" inputC2 Reach.empty)) (Or.inl rfl)

/-- C2 witness: the amended invariant applied to the store reached by
creating one pinned fact. -/
theorem pinned_relevance_C2_witness :
    (createMemory 0 "w2" inputC2w { memories := [], entities := [] }).1.relevanceScore =
      mkRat 1 1 := by
  have h := pinned_relevance_C2
    (createMemory 0 "w2" inputC2w { memories := [], entities := [] }).2
    (Reach.create 0 "w2" inputC2w Reach.empty)
  exact h _ (by decide) (by decide)

/-- The corroboration-count accumulator of `verifyMemory` counts exactly
the supporting candidates. -/
theorem verify_fold_count (memoryId : String) (memory : Memory) :
    ∀ (l : List Memory) (acc : ℕ × List String),
      (l.foldl (fun (acc : ℕ × List String) rel =>
        if rel.id == memoryId then acc
        else
          let sim := contentSimilarity memory.content rel.content
          if mkRat 2 5 < sim then (acc.1 + 1, acc.2 ++ [evidenceLine rel sim])
          else acc) acc).1 =
      acc.1 + supportCount memory memoryId l := by
  intro l
  induction l with
  | nil =>
    intro acc
    simp [supportCount]
  | cons rel rest ih =>
    intro acc
    rw [List.foldl_cons]
    have hcp : supportCount memory memoryId (rel :: rest) =
        supportCount memory memoryId rest +
          (if (!(rel.id == memoryId) &&
              decide (mkRat 2 5 < contentSimilarity memory.content rel.content)) = true
            then 1 else 0) := by
      simp [supportCount, List.countP_cons]
    by_cases h1 : (rel.id == memoryId) = true
    · rw [if_pos h1, ih, hcp, h1]
      simp
    · have h1' : (rel.id == memoryId) = false := by
        cases hb : (rel.id == memoryId)
        · rfl
        · exact absurd hb h1
      rw [if_neg h1]
      by_cases h2 : mkRat 2 5 < contentSimilarity memory.content rel.content
      · rw [if_pos h2, ih, hcp, h1', decide_eq_true h2]
        simp only [Bool.not_false, Bool.true_and, if_true]
        omega
      · rw [if_neg h2, ih, hcp, h1', decide_eq_false h2]
        simp

/-- C9: `verifyMemory` on an unknown id returns the typed negative
result (`verified = false`, `newConfidence = 0`, a "Memory not found"
evidence line) without mutating any stored fact; on an existing fact,
`verified` is true exactly when at least one related candidate other
than the fact itself has content similarity above 0.4, and the returned
score is the old score raised by 0.05 per such candidate, capped at 1
(then two-decimal rounded, a no-op on these values). -/
theorem verify_C9 (now : ℤ) (memoryId : String) (mems : List Memory) :
    (mems.find? (fun m => m.id == memoryId) = none →
      verifyMemory now memoryId mems =
        ({ verified := false, evidence := ["Memory not found"], newConfidence := mkRat 0 1 },
          mems)) ∧
    (∀ memory, mems.find? (fun m => m.id == memoryId) = some memory →
      ((verifyMemory now memoryId mems).1.verified = true ↔
        0 < supportCount memory memoryId
          (findRelated memory (touchById now memoryId mems))) ∧
      (verifyMemory now memoryId mems).1.newConfidence =
        (if 0 < supportCount memory memoryId
            (findRelated memory (touchById now memoryId mems)) then
          round2 (jsMin (mkRat 1 1) (qAdd memory.confidence.score
            (qMul (qOfNat (supportCount memory memoryId
              (findRelated memory (touchById now memoryId mems)))) (mkRat 1 20))))
        else round2 memory.confidence.score)) := by
  constructor
  · intro hf
    simp only [verifyMemory, getMemory, hf]
  · intro memory hf
    have hcount := verify_fold_count memoryId memory
      (findRelated memory (touchById now memoryId mems)) (0, [])
    simp only [verifyMemory, getMemory, hf]
    rw [hcount, Nat.zero_add]
    by_cases h : 0 < supportCount memory memoryId
        (findRelated memory (touchById now memoryId mems))
    · rw [if_pos h, if_pos h]
      exact ⟨by simp [h], rfl⟩
    · rw [if_neg h, if_neg h]
      exact ⟨by simp [h], rfl⟩

/-- C9 witness: the theorem applied to a concrete store — an unknown id
gives the typed negative result with the store unchanged, and a fact
with one supporting candidate verifies with score 0.6 + 0.05 = 0.65. -/
theorem verify_C9_witness :
    verifyMemory 9 "zz" stateC9 =
      ({ verified := false, evidence := ["Memory not found"], newConfidence := mkRat 0 1 },
        stateC9) ∧
    (verifyMemory 9 "r2" stateC9).1.verified = true ∧
    (verifyMemory 9 "r2" stateC9).1.newConfidence = mkRat 13 20 := by
  have h1 := (verify_C9 9 "zz" stateC9).1 (by decide)
  have h2 := (verify_C9 9 "r2" stateC9).2 m2C9 (by decide)
  refine ⟨h1, h2.1.mpr (by decide), ?_⟩
  rw [h2.2, if_pos (by decide)]
  decide

/-- Lookup-by-id over a cons cell, positive case. -/
theorem find?_cons_id_true (eid : String) (a : Entity) (l : List Entity)
    (h : (a.id == eid) = true) :
    (a :: l).find? (fun e => e.id == eid) = some a := by
  simp [List.find?_cons, h]

/-- Lookup-by-id over a cons cell, negative case. -/
theorem find?_cons_id_false (eid : String) (a : Entity) (l : List Entity)
    (h : (a.id == eid) = false) :
    (a :: l).find? (fun e => e.id == eid) = l.find? (fun e => e.id == eid) := by
  simp [List.find?_cons, h]

/-- Mapping an id-preserving function over the entity table commutes
with lookup by id. -/
theorem find?_map_of_id_eq (f : Entity → Entity) (hf : ∀ x, (f x).id = x.id) (eid : String) :
    ∀ es : List Entity,
      (es.map f).find? (fun e => e.id == eid) = (es.find? (fun e => e.id == eid)).map f := by
  intro es
  induction es with
  | nil => rfl
  | cons e rest ih =>
    rw [List.map_cons]
    by_cases h : (e.id == eid) = true
    · rw [find?_cons_id_true eid (f e) _ (by rw [hf]; exact h), find?_cons_id_true eid e _ h]
      rfl
    · have h' : (e.id == eid) = false := by
        cases hb : (e.id == eid)
        · rfl
        · exact absurd hb h
      rw [find?_cons_id_false eid (f e) _ (by rw [hf]; exact h'),
        find?_cons_id_false eid e _ h']
      exact ih

/-- Lookup after a memory-count bump. -/
theorem bumpCount_find (eid' eid : String) (es : List Entity) :
    (bumpCount eid' es).find? (fun e => e.id == eid) =
      (es.find? (fun e => e.id == eid)).map
        (fun e => if e.id == eid' then { e with memoryCount := e.memoryCount + 1 } else e) := by
  apply find?_map_of_id_eq
  intro x
  by_cases h : (x.id == eid') = true
  · rw [if_pos h]
  · rw [if_neg h]

theorem find?_append_none {α : Type} (p : α → Bool) :
    ∀ (l₁ l₂ : List α), l₁.find? p = none → (l₁ ++ l₂).find? p = l₂.find? p := by
  intro l₁
  induction l₁ with
  | nil => intro l₂ _; rfl
  | cons a rest ih =>
    intro l₂ h
    have hpa : p a = false := by
      cases hb : p a
      · rfl
      · rw [List.find?_cons_of_pos _ hb] at h
        exact absurd h (by simp)
    have hr : rest.find? p = none := by
      rw [List.find?_cons_of_neg _ (by simp [hpa])] at h
      exact h
    rw [List.cons_append, List.find?_cons_of_neg _ (by simp [hpa])]
    exact ih l₂ hr

theorem find?_append_some {α : Type} (p : α → Bool) :
    ∀ (l₁ l₂ : List α) (a : α), l₁.find? p = some a → (l₁ ++ l₂).find? p = some a := by
  intro l₁
  induction l₁ with
  | nil => intro l₂ a h; exact absurd h (by simp)
  | cons b rest ih =>
    intro l₂ a h
    cases hb : p b
    · rw [List.find?_cons_of_neg _ (by simp [hb])] at h
      rw [List.cons_append, List.find?_cons_of_neg _ (by simp [hb])]
      exact ih l₂ a h
    · rw [List.find?_cons_of_pos _ hb] at h
      rw [List.cons_append, List.find?_cons_of_pos _ hb]
      exact h

/-- Auto-creation does not disturb an existing entity's lookup. -/
theorem autoCreate_find_present (now : ℤ) (eid' eid : String) (es : List Entity) (e : Entity)
    (h : es.find? (fun x => x.id == eid) = some e) :
    (autoCreateEntity now eid' es).find? (fun x => x.id == eid) = some e := by
  rw [autoCreateEntity]
  by_cases ha : es.any (fun x => x.id == eid') = true
  · rw [if_pos ha]
    exact h
  · rw [if_neg ha]
    exact find?_append_some _ es _ e h

/-- Auto-creation of an absent entity makes it findable with the fresh
`concept` row. -/
theorem autoCreate_find_absent (now : ℤ) (eid : String) (es : List Entity)
    (h : es.find? (fun x => x.id == eid) = none) :
    (autoCreateEntity now eid es).find? (fun x => x.id == eid) =
      some { id := eid, name := eid, type := .concept, description := none, aliases := [],
             created := now, updated := now, memoryCount := 0 } := by
  rw [autoCreateEntity]
  have hanyf : es.any (fun x => x.id == eid) = false := by
    cases hb : es.any (fun x => x.id == eid)
    · rfl
    · obtain ⟨x, hx, hpx⟩ := List.any_eq_true.mp hb
      exact absurd hpx (by simpa using List.find?_eq_none.mp h x hx)
  rw [if_neg (by simp [hanyf]), find?_append_none _ es _ h,
    find?_cons_id_true eid _ _ (by simp)]

/-- One link step on an id other than `eid` preserves `eid`'s absence. -/
theorem step_find_none (now : ℤ) (x eid : String) (hx : (x == eid) = false) (es : List Entity)
    (h : es.find? (fun e => e.id == eid) = none) :
    (bumpCount x (autoCreateEntity now x es)).find? (fun e => e.id == eid) = none := by
  rw [bumpCount_find]
  have hac : (autoCreateEntity now x es).find? (fun e => e.id == eid) = none := by
    rw [autoCreateEntity]
    by_cases ha : es.any (fun e2 => e2.id == x) = true
    · rw [if_pos ha]
      exact h
    · rw [if_neg ha, find?_append_none _ es _ h,
        find?_cons_id_false eid _ _ (by simp [hx])]
      rfl
  rw [hac]
  rfl

/-- Linking a list of entity ids adds one memory count per occurrence to
an already-present entity and changes none of its other fields. -/
theorem linkEntities_find_present (now : ℤ) (eid : String) :
    ∀ (ids : List String) (es : List Entity) (e : Entity),
      es.find? (fun x => x.id == eid) = some e →
      (linkEntities now ids es).find? (fun x => x.id == eid) =
        some { e with memoryCount := e.memoryCount + ids.count eid } := by
  intro ids
  induction ids with
  | nil =>
    intro es e h
    simp only [linkEntities, List.foldl_nil, List.count_nil]
    have hid : ({ e with memoryCount := e.memoryCount + 0 } : Entity) = e := by
      cases e
      simp
    rw [hid]
    exact h
  | cons x rest ih =>
    intro es e h
    have heid : e.id = eid := eq_of_beq (by simpa using List.find?_some h)
    have h1 := autoCreate_find_present now x eid es e h
    have h2 : (bumpCount x (autoCreateEntity now x es)).find? (fun x2 => x2.id == eid) =
        some (if e.id == x then { e with memoryCount := e.memoryCount + 1 } else e) := by
      rw [bumpCount_find, h1]
      rfl
    by_cases hxe : x = eid
    · subst hxe
      have hbx : (e.id == x) = true := beq_iff_eq.mpr heid
      rw [if_pos hbx] at h2
      have h3 := ih _ _ h2
      have hcnt : e.memoryCount + 1 + rest.count x = e.memoryCount + (x :: rest).count x := by
        have : (x :: rest).count x = rest.count x + 1 := by
          rw [List.count_cons]
          simp
        omega
      exact h3.trans
        (congrArg (fun n => some ({ e with memoryCount := n } : Entity)) hcnt)
    · have hbx : (e.id == x) = false := by
        rw [heid]
        exact beq_eq_false_iff_ne.mpr (Ne.symm hxe)
      rw [if_neg (by simp [hbx])] at h2
      have h3 := ih _ _ h2
      have hcnt : e.memoryCount + rest.count eid = e.memoryCount + (x :: rest).count eid := by
        have : (x :: rest).count eid = rest.count eid := by
          rw [List.count_cons]
          simp [beq_eq_false_iff_ne.mpr hxe]
        omega
      exact h3.trans
        (congrArg (fun n => some ({ e with memoryCount := n } : Entity)) hcnt)

/-- Linking a list containing an absent entity id auto-creates the
entity as a `concept` named by its id, with one memory count per
occurrence of the id in the list. -/
theorem linkEntities_creates (now : ℤ) (eid : String) :
    ∀ (ids : List String) (es : List Entity), eid ∈ ids →
      es.find? (fun e => e.id == eid) = none →
      (linkEntities now ids es).find? (fun e => e.id == eid) =
        some { id := eid, name := eid, type := .concept, description := none, aliases := [],
               created := now, updated := now, memoryCount := ids.count eid } := by
  intro ids
  induction ids with
  | nil =>
    intro es hmem _
    exact absurd hmem (List.not_mem_nil eid)
  | cons x rest ih =>
    intro es hmem habs
    by_cases hxe : x = eid
    · subst hxe
      have h1 := autoCreate_find_absent now x es habs
      have h2 : (bumpCount x (autoCreateEntity now x es)).find? (fun e => e.id == x) =
          some { id := x, name := x, type := .concept, description := none, aliases := [],
                 created := now, updated := now, memoryCount := 1 } := by
        rw [bumpCount_find, h1]
        simp
      have h3 := linkEntities_find_present now x rest _ _ h2
      have hcnt : 1 + rest.count x = (x :: rest).count x := by
        have : (x :: rest).count x = rest.count x + 1 := by
          rw [List.count_cons]
          simp
        omega
      exact h3.trans (congrArg (fun n => some
        ({ id := x, name := x, type := .concept, description := none, aliases := [],
           created := now, updated := now, memoryCount := n } : Entity)) hcnt)
    · have hxm : eid ∈ rest := by
        rcases List.mem_cons.mp hmem with hh | hh
        · exact absurd hh.symm hxe
        · exact hh
      have hstep := step_find_none now x eid (beq_eq_false_iff_ne.mpr hxe) es habs
      have h3 := ih _ hxm hstep
      have hcnt : rest.count eid = (x :: rest).count eid := by
        rw [List.count_cons]
        simp [beq_eq_false_iff_ne.mpr hxe]
      exact h3.trans (congrArg (fun n => some
        ({ id := eid, name := eid, type := .concept, description := none, aliases := [],
           created := now, updated := now, memoryCount := n } : Entity)) hcnt)

/-- C10: `createMemory` never fails on an unknown entity id — the id is
silently auto-created as a `concept` entity named by the id with empty
aliases, the new fact carries the link, and the fresh entity's memory
count is bumped once per occurrence of the id in the input (so exactly
once for an id listed once). -/
theorem createMemory_autocreates_C10 (now : ℤ) (newId : String) (input : CreateMemoryInput)
    (s : Store) (eid : String) (hmem : eid ∈ input.entities)
    (habs : s.entities.find? (fun e => e.id == eid) = none) :
    eid ∈ (createMemory now newId input s).1.entities ∧
    (createMemory now newId input s).2.entities.find? (fun e => e.id == eid) =
      some { id := eid, name := eid, type := .concept, description := none, aliases := [],
             created := now, updated := now, memoryCount := input.entities.count eid } ∧
    1 ≤ input.entities.count eid := by
  refine ⟨hmem, ?_, ?_⟩
  · simp only [createMemory]
    have hne : input.entities.isEmpty = false := by
      cases hi : input.entities with
      | nil => rw [hi] at hmem; exact absurd hmem (List.not_mem_nil eid)
      | cons a l => rfl
    rw [if_neg (by simp [hne])]
    exact linkEntities_creates now eid input.entities s.entities hmem habs
  · exact List.one_le_count_iff.mpr hmem

/-- C10 witness: creating a fact naming the unknown id `"fresh-topic"`
on an empty store links the fact and creates the entity. -/
theorem createMemory_autocreates_C10_witness :
    "fresh-topic" ∈ (createMemory 5 "w10" inputC10 { memories := [], entities := [] }).1.entities ∧
    (createMemory 5 "w10" inputC10 { memories := [], entities := [] }).2.entities.find?
        (fun e => e.id == "fresh-topic") =
      some { id := "fresh-topic", name := "fresh-topic", type := .concept, description := none,
             aliases := [], created := 5, updated := 5,
             memoryCount := inputC10.entities.count "fresh-topic" } ∧
    1 ≤ inputC10.entities.count "fresh-topic" :=
  createMemory_autocreates_C10 5 "w10" inputC10 { memories := [], entities := [] }
    "fresh-topic" (by decide) (by decide)

end AgentMem


